import Mathlib

/-!
Verification of the Daydicated 2026 calendar app (calendar.js, export.js,
auth.js, app.js) against its natural-language specification.

The development shallowly embeds the code:

* the date-grid builder (`getDaysInMonth`, `getFirstDayOfMonth` in
  calendar.js) delegates to the JavaScript `Date` built-in; we embed the
  ECMA-262 `Date` semantics these calls rely on (`MakeDay`, `DateFromTime`,
  `WeekDay`), with time measured in whole days since the epoch
  1970-01-01 and machine integers modelled as `Int`;
* the entry cache (`loadUserEntries`, `saveEntry`, `getCurrentEntries`,
  `getViewingUserId` in calendar.js) becomes explicit state passing over a
  `CalState` record, with the Firestore collaborator modelled as a list of
  documents and fetch/write failures injected as boolean parameters;
* the export formatters (`exportCSV`, `exportJSON` in export.js) become
  pure functions from an entry list to the produced text, embedding the
  CSV escaping of the source and the ECMA-262 `JSON.stringify`
  pretty-printing (`gap = 2`) it calls; `JSON.parse` is modelled by an
  executable recursive-descent parser over the JSON fragment the exporter
  emits (strings, integers, arrays, objects).
-/

/-! ## Date grid builder (calendar.js `getDaysInMonth`, `getFirstDayOfMonth`)

Both functions call the JavaScript `Date` built-in:
`new Date(year, month + 1, 0).getDate()` and
`new Date(year, month, 1).getDay()`.  We embed the ECMA-262 semantics of
those calls.  A time value is a count of whole days since 1970-01-01
(the code never uses sub-day components). -/

/-- ECMA-262 `InLeapYear` / `DaysInYear`: a year has 366 days exactly when
it is divisible by 4 and (not divisible by 100 or divisible by 400). -/
def inLeapYear (y : Int) : Bool :=
  y % 4 == 0 && (!(y % 100 == 0) || y % 400 == 0)

/-- Days in the year strictly before the 0-indexed month `m`
(ECMA-262 `DayWithinYear` month offsets). -/
def cumDaysBefore (leap : Bool) : Nat → Int
  | 0 => 0
  | 1 => 31
  | 2 => 59 + (if leap then 1 else 0)
  | 3 => 90 + (if leap then 1 else 0)
  | 4 => 120 + (if leap then 1 else 0)
  | 5 => 151 + (if leap then 1 else 0)
  | 6 => 181 + (if leap then 1 else 0)
  | 7 => 212 + (if leap then 1 else 0)
  | 8 => 243 + (if leap then 1 else 0)
  | 9 => 273 + (if leap then 1 else 0)
  | 10 => 304 + (if leap then 1 else 0)
  | 11 => 334 + (if leap then 1 else 0)
  | _ => 365 + (if leap then 1 else 0)

/-- ECMA-262 `DayFromYear`: the day number of January 1 of year `y`
(day 0 is 1970-01-01).  Integer division on `Int` is floor division for
these positive divisors, matching the `floor` in the ECMA formula. -/
def dayFromYear (y : Int) : Int :=
  365 * (y - 1970) + (y - 1969) / 4 - (y - 1901) / 100 + (y - 1601) / 400

/-- ECMA-262 `MakeDay(year, month, date)`: normalise the month into
`0..11` carrying into the year, take the day number of the first of that
month, and add `date - 1`. -/
def makeDay (y m d : Int) : Int :=
  let ym := y + m / 12
  let mn := (m % 12).toNat
  dayFromYear ym + cumDaysBefore (inLeapYear ym) mn + (d - 1)

/-- Day number stored by the JavaScript `Date(year, month, date)`
constructor: ECMA-262 additionally maps two-digit years `0..99` to
`1900..1999` before calling `MakeDay`. -/
def dateConstructorDay (year month date : Int) : Int :=
  makeDay (if 0 ≤ year ∧ year ≤ 99 then 1900 + year else year) month date

/-- ECMA-262 `DateFromTime`: the day-of-month (1-based) of a day number,
computed by the standard civil-from-days conversion (era = 400-year
cycle of 146097 days, rebased to 0000-03-01). -/
def dateFromDay (z : Int) : Int :=
  let doe := (z + 719468) % 146097
  let yoe := (doe - doe / 1460 + doe / 36524 - doe / 146096) / 365
  let doy := doe - (365 * yoe + yoe / 4 - yoe / 100)
  let mp := (5 * doy + 2) / 153
  doy - (153 * mp + 2) / 5 + 1

/-- calendar.js `getDaysInMonth(month, year)` =
`new Date(year, month + 1, 0).getDate()`: the day-of-month of day 0 of
the following month, i.e. of the day before its first day. -/
def getDaysInMonth (month year : Int) : Int :=
  dateFromDay (dateConstructorDay year (month + 1) 0)

/-- calendar.js `getFirstDayOfMonth(month, year)` =
`new Date(year, month, 1).getDay()`: ECMA-262 `WeekDay(t) = (Day(t) + 4)
modulo 7` (day 0, 1970-01-01, was a Thursday = 4; 0 denotes Sunday). -/
def getFirstDayOfMonth (month year : Int) : Int :=
  (dateConstructorDay year month 1 + 4) % 7

/-- Modelled from the spec: the Gregorian day count for 0-indexed month
`m` of `year` — 29 for February exactly when the year is divisible by 4
and (not divisible by 100 or divisible by 400).  This is the reference
table `getDaysInMonth` is compared against. -/
def specGregorianDays (year : Int) (m : Nat) : Int :=
  if m = 1 then
    (if year % 4 = 0 ∧ (¬ year % 100 = 0 ∨ year % 400 = 0) then 29 else 28)
  else if m = 3 ∨ m = 5 ∨ m = 8 ∨ m = 10 then 30
  else 31

/-! ## Character helpers shared by the parseInt and export models -/

/-- Whitespace recognised when skipping between tokens (space, newline,
tab, carriage return). -/
def isWsChar (c : Char) : Bool :=
  c = ' ' || c = '\n' || c = '\t' || c = '\x0d'

/-- Decimal digit test. -/
def isDigitChar (c : Char) : Bool :=
  48 ≤ c.toNat && c.toNat ≤ 57

/-- Value of a decimal digit character. -/
def digitVal (c : Char) : Nat := c.toNat - 48

/-- Value of a hexadecimal digit character (both letter cases). -/
def hexVal (c : Char) : Option Nat :=
  if isDigitChar c then some (c.toNat - 48)
  else if 97 ≤ c.toNat && c.toNat ≤ 102 then some (c.toNat - 87)
  else if 65 ≤ c.toNat && c.toNat ≤ 70 then some (c.toNat - 55)
  else none

/-- Greedily consume decimal digits, accumulating their value; returns
the value and the unconsumed rest. -/
def parseDigitsAcc (acc : Nat) : List Char → Nat × List Char
  | [] => (acc, [])
  | c :: r =>
    if isDigitChar c then parseDigitsAcc (10 * acc + digitVal c) r
    else (acc, c :: r)

/-- Greedily consume hexadecimal digits, accumulating their value. -/
def parseHexAcc (acc : Nat) : List Char → Nat × List Char
  | [] => (acc, [])
  | c :: r =>
    match hexVal c with
    | some v => parseHexAcc (16 * acc + v) r
    | none => (acc, c :: r)

/-- ECMA-262 `parseInt(string)` as called by `saveEntry`
(`parseInt(rating)`, no radix argument): trim leading whitespace, read an
optional sign, detect a `0x`/`0X` prefix (radix 16, otherwise radix 10),
then take the longest prefix of digits in that radix, ignoring any
trailing characters.  `none` models the `NaN` result produced when no
digit follows. -/
def jsParseInt (s : String) : Option Int :=
  let l := s.data.dropWhile isWsChar
  let sgn : Bool × List Char :=
    match l with
    | '-' :: r => (true, r)
    | '+' :: r => (false, r)
    | _ => (false, l)
  let hx : Bool × List Char :=
    match sgn.2 with
    | '0' :: x :: r => if x = 'x' || x = 'X' then (true, r) else (false, sgn.2)
    | _ => (false, sgn.2)
  let mag : Option Nat :=
    if hx.1 then
      match hx.2 with
      | c :: _ => if (hexVal c).isSome then some (parseHexAcc 0 hx.2).1 else none
      | [] => none
    else
      match hx.2 with
      | c :: _ => if isDigitChar c then some (parseDigitsAcc 0 hx.2).1 else none
      | [] => none
  mag.map (fun n => if sgn.1 then -(n : Int) else (n : Int))

/-! ## Entry cache (calendar.js module state and operations)

The Firestore `entries` collection is modelled as a list of documents;
`getDocs` order and failure, `setDoc` failure, and the authenticated
user (`getCurrentUser()` from auth.js) are inputs.  The module-level
mutable variables `currentEntries` and `viewingUserId` become the
`CalState` record threaded through the operations. -/

/-- One Firestore document of the `entries` collection.  `rating` is the
stored number; `none` models `NaN` (storable, since `saveEntry` writes
`parseInt(rating)` unvalidated). -/
structure Doc where
  id : String
  userId : String
  date : String
  rating : Option Int
  note : String
deriving DecidableEq

/-- One value of the `currentEntries` cache object
(`{ id, rating, note }` in calendar.js).  `ownerId` is a ghost
annotation, not present in the JavaScript object: it records which
user's entry this is (the queried user in `loadUserEntries`, the
authenticated user in `saveEntry`) and is used only to state ownership
invariants. -/
structure CacheEntry where
  id : String
  rating : Option Int
  note : String
  ownerId : String
deriving DecidableEq

/-- The calendar module's mutable state: the cache object
`currentEntries` (a JavaScript object, modelled as a key-unique
association list) and `viewingUserId` (`null` at start). -/
structure CalState where
  currentEntries : List (String × CacheEntry)
  viewingUserId : Option String
deriving DecidableEq

/-- The errors the spec's taxonomy assigns to the two calendar
operations. -/
inductive CalErr where
  | fetchError
  | writeError
  | notAuthenticated
deriving DecidableEq

/-- JavaScript object property read: first binding of the key. -/
def objGet {α : Type} : List (String × α) → String → Option α
  | [], _ => none
  | (k, v) :: r, key => if k = key then some v else objGet r key

/-- JavaScript object property write `o[k] = v`: replace the binding in
place if the key exists, otherwise append it. -/
def objSet {α : Type} : List (String × α) → String → α → List (String × α)
  | [], k, v => [(k, v)]
  | (k', v') :: r, k, v =>
    if k' = k then (k, v) :: r else (k', v') :: objSet r k v

/-- Cache value built from a fetched document
(`{ id: doc.id, rating: data.rating, note: data.note }`). -/
def docToCacheEntry (d : Doc) : CacheEntry :=
  { id := d.id, rating := d.rating, note := d.note, ownerId := d.userId }

/-- Lexicographic code-point comparison of strings, the order Firestore
uses for string fields. -/
def strLe : List Char → List Char → Bool
  | [], _ => true
  | _ :: _, [] => false
  | a :: as, b :: bs =>
    if a.toNat < b.toNat then true
    else if b.toNat < a.toNat then false
    else strLe as bs

/-- Insert a document into a list sorted by ascending `date`. -/
def insertByDate (d : Doc) : List Doc → List Doc
  | [] => [d]
  | x :: xs =>
    if strLe d.date.data x.date.data then d :: x :: xs
    else x :: insertByDate d xs

/-- Firestore `orderBy('date')`: the snapshot is sorted by ascending
date string. -/
def sortByDate (l : List Doc) : List Doc := l.foldr insertByDate []

/-- The `snapshot.forEach` loop of `loadUserEntries`: build the
`entries` object keyed by `data.date`. -/
def buildEntries (docs : List Doc) : List (String × CacheEntry) :=
  docs.foldl (fun m d => objSet m d.date (docToCacheEntry d)) []

/-- calendar.js `loadUserEntries(userId)`.  `db` is the `entries`
collection; `fetchOk` injects the success or failure of `getDocs`.  On
success the query filters `userId == userId`, orders by date, and the
cache and `viewingUserId` are replaced wholesale; on failure the error
is rethrown (a `FetchError` in the spec's taxonomy) and the state is
untouched. -/
def loadUserEntries (db : List Doc) (userId : String) (fetchOk : Bool)
    (s : CalState) : CalState × Option CalErr :=
  if fetchOk then
    let docs := sortByDate (db.filter (fun d => d.userId == userId))
    ({ currentEntries := buildEntries docs, viewingUserId := some userId },
     none)
  else (s, some CalErr.fetchError)

/-- Firestore `setDoc(doc(db, 'entries', docId), data)`: overwrite the
document with that id, or create it. -/
def setDocById (docId : String) (d : Doc) : List Doc → List Doc
  | [] => [d]
  | x :: xs => if x.id = docId then d :: xs else x :: setDocById docId d xs

/-- calendar.js `saveEntry(date, rating, note)`.  `user` is the
`getCurrentUser()` result (`none` when nobody is logged in), `note` is
`none` when the argument is `null`/`undefined` (the code applies
`note || ''`), and `writeOk` injects the success or failure of `setDoc`
(a `WriteError` in the spec's taxonomy).  Returns the updated
collection, the updated module state, and the error if any; the cache
is only touched after a successful write. -/
def saveEntry (user : Option String) (date rating : String)
    (note : Option String) (writeOk : Bool) (db : List Doc)
    (s : CalState) : List Doc × CalState × Option CalErr :=
  match user with
  | none => (db, s, some CalErr.notAuthenticated)
  | some uid =>
    if writeOk then
      let docId := uid ++ "_" ++ date
      let newDoc : Doc :=
        { id := docId, userId := uid, date := date,
          rating := jsParseInt rating, note := note.getD "" }
      let entry : CacheEntry :=
        { id := docId, rating := jsParseInt rating, note := note.getD "",
          ownerId := uid }
      (setDocById docId newDoc db,
       { s with currentEntries := objSet s.currentEntries date entry },
       none)
    else (db, s, some CalErr.writeError)

/-- calendar.js `getCurrentEntries()`. -/
def getCurrentEntries (s : CalState) : List (String × CacheEntry) :=
  s.currentEntries

/-- calendar.js `getViewingUserId()`. -/
def getViewingUserId (s : CalState) : Option String :=
  s.viewingUserId

/-- States of the calendar module reachable from the initial state
(`currentEntries = {}`, `viewingUserId = null`, collection `db0`) by any
sequence of successful `loadUserEntries` and `saveEntry` calls. -/
inductive ReachableCal (db0 : List Doc) : List Doc → CalState → Prop where
  | init : ReachableCal db0 db0 { currentEntries := [], viewingUserId := none }
  | load {db : List Doc} {s : CalState} (userId : String) :
      ReachableCal db0 db s →
      ReachableCal db0 db (loadUserEntries db userId true s).1
  | save {db : List Doc} {s : CalState} (uid date rating : String)
      (note : Option String) :
      ReachableCal db0 db s →
      ReachableCal db0 (saveEntry (some uid) date rating note true db s).1
        (saveEntry (some uid) date rating note true db s).2.1

/-- Modelled from the spec: the same reachable states, restricted to the
sequences the application controller actually produces, in which a save
is only performed while viewing the authenticated user's own calendar
(app.js: `isEditable = currentUser.uid === userId`). -/
inductive ReachableCalOwned (db0 : List Doc) : List Doc → CalState → Prop where
  | init :
      ReachableCalOwned db0 db0 { currentEntries := [], viewingUserId := none }
  | load {db : List Doc} {s : CalState} (userId : String) :
      ReachableCalOwned db0 db s →
      ReachableCalOwned db0 db (loadUserEntries db userId true s).1
  | save {db : List Doc} {s : CalState} (uid date rating : String)
      (note : Option String) :
      ReachableCalOwned db0 db s →
      s.viewingUserId = some uid →
      ReachableCalOwned db0 (saveEntry (some uid) date rating note true db s).1
        (saveEntry (some uid) date rating note true db s).2.1

/-! ## Export formatter (export.js `exportCSV`, `exportJSON`)

`getAllEntries()` (calendar.js) maps each fetched document to
`{ userId, date, rating, note }`; both exporters consume such a list.
Per the spec's data model an entry's rating is an integer and its note a
string (possibly empty), so the exporters are modelled on lists of
`Entry` below and quantified over every such list. -/

/-- One export entry as produced by `getAllEntries()`:
`{ userId: data.userId, date: data.date, rating: data.rating,
note: data.note }`. -/
structure Entry where
  userId : String
  date : String
  rating : Int
  note : String
deriving DecidableEq

/-- Decimal digit character (`'0'` to `'9'`). -/
def decDigitChar (n : Nat) : Char := Char.ofNat (48 + n)

/-- Decimal digits of a natural number, most significant first
(JavaScript `Number::toString` for a non-negative integral value). -/
def natDecChars (n : Nat) : List Char :=
  if _h : n < 10 then [decDigitChar n]
  else natDecChars (n / 10) ++ [decDigitChar (n % 10)]
termination_by n
decreasing_by exact Nat.div_lt_self (by omega) (by norm_num)

/-- JavaScript `ToString` of an integral number value, as used by the
template literal `${entry.rating}` and by `JSON.stringify` on a rating. -/
def intToString (i : Int) : String :=
  if i < 0 then String.mk ('-' :: natDecChars (-i).toNat)
  else String.mk (natDecChars i.toNat)

/-- export.js: `note.replace(/"/g, '""')` — every double-quote character
of the note is doubled. -/
def csvDoubleQuotes (note : String) : String :=
  String.mk (note.data.flatMap (fun c => if c = '"' then ['"', '"'] else [c]))

/-- export.js: the escaped note field — quote-wrapped with internal
quotes doubled when the note contains a comma or a double-quote
(`note.includes(',') || note.includes('"')`), otherwise the note
verbatim.  No other character (in particular no newline) is escaped. -/
def csvEscapeNote (note : String) : String :=
  if note.data.contains ',' || note.data.contains '"' then
    "\"" ++ csvDoubleQuotes note ++ "\""
  else note

/-- export.js: one CSV row
`` `${entry.userId},${entry.date},${entry.rating},${escapedNote}` ``
(the code takes `entry.note || ''`, the identity on strings). -/
def csvRow (e : Entry) : String :=
  e.userId ++ "," ++ e.date ++ "," ++ intToString e.rating ++ ","
    ++ csvEscapeNote e.note

/-- export.js `exportCSV`: the produced text
`[header, ...rows].join('\n')`. -/
def exportCSV (entries : List Entry) : String :=
  String.intercalate "\n" ("userId,date,rating,note" :: entries.map csvRow)

/-- ECMA-262 `QuoteJSONString` escaping of one character: backslash and
double-quote get a backslash, the named control characters use their
short escapes, the remaining control characters below U+0020 become
`\u00xx` (lowercase hex), and every other character is emitted
verbatim. -/
def escJSONChar (c : Char) : List Char :=
  if c = '"' then ['\\', '"']
  else if c = '\\' then ['\\', '\\']
  else if c = '\x08' then ['\\', 'b']
  else if c = '\t' then ['\\', 't']
  else if c = '\n' then ['\\', 'n']
  else if c = '\x0c' then ['\\', 'f']
  else if c = '\x0d' then ['\\', 'r']
  else if c.toNat < 32 then
    ['\\', 'u', '0', '0',
     (if c.toNat / 16 < 10 then Char.ofNat (48 + c.toNat / 16)
      else Char.ofNat (87 + c.toNat / 16)),
     (if c.toNat % 16 < 10 then Char.ofNat (48 + c.toNat % 16)
      else Char.ofNat (87 + c.toNat % 16))]
  else [c]

/-- ECMA-262 `QuoteJSONString`: the JSON string literal for `s`. -/
def quoteJSONString (s : String) : String :=
  "\"" ++ String.mk (s.data.flatMap escJSONChar) ++ "\""

/-- The text `JSON.stringify(e, null, 2)` produces for one entry object
at nesting depth 1: members in insertion order `userId, date, rating, note`,
each on its own line indented four spaces, the closing brace indented
two. -/
def entryJSONText (e : Entry) : String :=
  "\x7b\n    \"userId\": " ++ quoteJSONString e.userId
    ++ ",\n    \"date\": " ++ quoteJSONString e.date
    ++ ",\n    \"rating\": " ++ intToString e.rating
    ++ ",\n    \"note\": " ++ quoteJSONString e.note
    ++ "\n  \x7d"

/-- ECMA-262 list join with a separator, as the `JSON.stringify`
serialization concatenates the serialized members. -/
def joinSep (sep : String) : List String → String
  | [] => ""
  | [x] => x
  | x :: y :: xs => x ++ sep ++ joinSep sep (y :: xs)

/-- export.js `exportJSON`: the text `JSON.stringify(entries, null, 2)` —
`[]` for the empty list, otherwise the elements each on their own line
indented two spaces, separated by commas. -/
def exportJSON (entries : List Entry) : String :=
  if entries.isEmpty then "[]"
  else "[\n  " ++ joinSep ",\n  " (entries.map entryJSONText) ++ "\n]"

/-! ## Model of `JSON.parse` on the fragment the exporter emits

`exportJSON` emits only strings, integral numbers, arrays and objects,
so `JSON.parse` is modelled by a recursive-descent parser for exactly
that JSON fragment; on every text `exportJSON` produces, the model and
the library agree.  Parsing yields the JavaScript value as a `JVal`. -/

/-- A parsed JSON value: string, integral number, array or object
(members in source order). -/
inductive JVal where
  | str (s : String)
  | num (n : Int)
  | arr (elems : List JVal)
  | obj (fields : List (String × JVal))

/-- Drop leading JSON whitespace. -/
def skipWs : List Char → List Char
  | [] => []
  | c :: r => if isWsChar c then skipWs r else c :: r

/-- The character named by a short JSON escape sequence. -/
def escCode (e : Char) : Option Char :=
  if e = '"' then some '"'
  else if e = '\\' then some '\\'
  else if e = '/' then some '/'
  else if e = 'b' then some '\x08'
  else if e = 'f' then some '\x0c'
  else if e = 'n' then some '\n'
  else if e = 'r' then some '\x0d'
  else if e = 't' then some '\t'
  else none

mutual

/-- Parse the body of a JSON string literal (the opening quote already
consumed): returns the denoted characters and the rest after the closing
quote. -/
def parseStrBody : List Char → Option (List Char × List Char)
  | [] => none
  | c :: r =>
    if c = '"' then some ([], r)
    else if c = '\\' then parseEsc r
    else (parseStrBody r).map (fun p => (c :: p.1, p.2))

/-- Parse what follows a backslash inside a JSON string literal. -/
def parseEsc : List Char → Option (List Char × List Char)
  | [] => none
  | e :: r' =>
    if e = 'u' then parseEscU r'
    else
      match escCode e with
      | some c' => (parseStrBody r').map (fun p => (c' :: p.1, p.2))
      | none => none

/-- Parse the four hex digits of a `\u` escape inside a JSON string
literal. -/
def parseEscU : List Char → Option (List Char × List Char)
  | h1 :: h2 :: h3 :: h4 :: r'' =>
    match hexVal h1, hexVal h2, hexVal h3, hexVal h4 with
    | some a, some b, some c3, some d =>
      (parseStrBody r'').map
        (fun p => (Char.ofNat (4096 * a + 256 * b + 16 * c3 + d) :: p.1, p.2))
    | _, _, _, _ => none
  | _ => none

end

/-- Parse a JSON integral number token: optional minus sign followed by
at least one decimal digit (taken greedily). -/
def parseIntTok : List Char → Option (Int × List Char)
  | [] => none
  | c :: r =>
    if c = '-' then
      match r with
      | [] => none
      | c2 :: r2 =>
        if isDigitChar c2 then
          some (-((parseDigitsAcc (digitVal c2) r2).1 : Int),
                (parseDigitsAcc (digitVal c2) r2).2)
        else none
    else if isDigitChar c then
      some (((parseDigitsAcc (digitVal c) r).1 : Int),
            (parseDigitsAcc (digitVal c) r).2)
    else none

mutual

/-- Parse one JSON value, skipping leading whitespace.  The fuel
argument bounds the recursion and strictly decreases on every nested
call; any fuel at least the input length is enough. -/
def parseVal : Nat → List Char → Option (JVal × List Char)
  | 0, _ => none
  | Nat.succ f, l =>
    match skipWs l with
    | [] => none
    | c :: r =>
      if c = '"' then
        (parseStrBody r).map (fun p => (JVal.str (String.mk p.1), p.2))
      else if c = '[' then
        match skipWs r with
        | ']' :: r' => some (JVal.arr [], r')
        | l' => (parseItems f l').map (fun p => (JVal.arr p.1, p.2))
      else if c = '\x7b' then
        match skipWs r with
        | '\x7d' :: r' => some (JVal.obj [], r')
        | l' => (parseMembers f l').map (fun p => (JVal.obj p.1, p.2))
      else
        (parseIntTok (c :: r)).map (fun p => (JVal.num p.1, p.2))

/-- Parse the elements of a non-empty JSON array, up to and including
the closing bracket. -/
def parseItems : Nat → List Char → Option (List JVal × List Char)
  | 0, _ => none
  | Nat.succ f, l =>
    match parseVal f l with
    | none => none
    | some (v, r) =>
      match skipWs r with
      | ',' :: r' => (parseItems f r').map (fun p => (v :: p.1, p.2))
      | ']' :: r' => some ([v], r')
      | _ => none

/-- Parse the members of a non-empty JSON object, up to and including
the closing brace. -/
def parseMembers : Nat → List Char → Option (List (String × JVal) × List Char)
  | 0, _ => none
  | Nat.succ f, l =>
    match skipWs l with
    | '"' :: r =>
      match parseStrBody r with
      | none => none
      | some (k, r1) =>
        match skipWs r1 with
        | ':' :: r2 =>
          match parseVal f r2 with
          | none => none
          | some (v, r3) =>
            match skipWs r3 with
            | ',' :: r4 =>
              (parseMembers f r4).map
                (fun p => ((String.mk k, v) :: p.1, p.2))
            | '\x7d' :: r4 => some ([(String.mk k, v)], r4)
            | _ => none
        | _ => none
    | _ => none

end

/-- The model of `JSON.parse(text)`: parse one value with ample fuel and
require that only whitespace remains. -/
def parseJSONText (s : String) : Option JVal :=
  match parseVal (s.data.length + 1) s.data with
  | some (v, r) => if skipWs r = [] then some v else none
  | none => none

/-- JavaScript property read on a parsed object (the exporter never
emits duplicate keys). -/
def jvalField (fs : List (String × JVal)) (key : String) : Option JVal :=
  match fs with
  | [] => none
  | (k, v) :: r => if k = key then some v else jvalField r key

/-- Read one parsed entry object back, field for field. -/
def entryOfJVal : JVal → Option Entry
  | JVal.obj fs =>
    match jvalField fs "userId", jvalField fs "date",
          jvalField fs "rating", jvalField fs "note" with
    | some (JVal.str u), some (JVal.str d), some (JVal.num r),
      some (JVal.str n) =>
      some { userId := u, date := d, rating := r, note := n }
    | _, _, _, _ => none
  | _ => none

/-- Read a parsed entry list back, element by element. -/
def entryListOfJVals : List JVal → Option (List Entry)
  | [] => some []
  | v :: vs =>
    match entryOfJVal v, entryListOfJVals vs with
    | some e, some es => some (e :: es)
    | _, _ => none

/-- Read a parsed entry list back. -/
def entriesOfJVal : JVal → Option (List Entry)
  | JVal.arr vs => entryListOfJVals vs
  | _ => none

/-- Parse exported JSON text back into the entry list it denotes. -/
def parseEntriesJSON (s : String) : Option (List Entry) :=
  (parseJSONText s).bind entriesOfJVal

/-- The JavaScript value `JSON.parse` yields for one serialized entry:
an object with the four members in insertion order. -/
def entryJVal (e : Entry) : JVal :=
  JVal.obj [("userId", JVal.str e.userId), ("date", JVal.str e.date),
            ("rating", JVal.num e.rating), ("note", JVal.str e.note)]

set_option maxRecDepth 100000 in
set_option maxHeartbeats 4000000 in
lemma getDaysInMonth_base : ∀ a : Nat, a < 400 → ∀ m : Nat, m < 12 →
    getDaysInMonth (m : Int) (1000 + (a : Int))
      = specGregorianDays (1000 + (a : Int)) m := by
  decide

lemma dayFromYear_add_400 (y : Int) : dayFromYear (y + 400) = dayFromYear y + 146097 := by
  unfold dayFromYear; omega

lemma inLeapYear_add_400 (y : Int) : inLeapYear (y + 400) = inLeapYear y := by
  have h4 : (y + 400) % 4 = y % 4 := by omega
  have h100 : (y + 400) % 100 = y % 100 := by omega
  have h400 : (y + 400) % 400 = y % 400 := by omega
  simp only [inLeapYear, h4, h100, h400]

lemma dateFromDay_add_146097 (z : Int) : dateFromDay (z + 146097) = dateFromDay z := by
  simp only [dateFromDay]
  have h : (z + 146097 + 719468) % 146097 = (z + 719468) % 146097 := by omega
  rw [h]

lemma specGregorianDays_add_400 (y : Int) (m : Nat) :
    specGregorianDays (y + 400) m = specGregorianDays y m := by
  have h4 : (y + 400) % 4 = y % 4 := by omega
  have h100 : (y + 400) % 100 = y % 100 := by omega
  have h400 : (y + 400) % 400 = y % 400 := by omega
  simp only [specGregorianDays, h4, h100, h400]

lemma getDaysInMonth_add_400 (m : Nat) (y : Int) (hy : 1000 ≤ y) :
    getDaysInMonth (m : Int) (y + 400) = getDaysInMonth (m : Int) y := by
  simp only [getDaysInMonth, dateConstructorDay, makeDay]
  rw [if_neg (by omega), if_neg (by omega)]
  have h1 : y + 400 + ((m : Int) + 1) / 12 = (y + ((m : Int) + 1) / 12) + 400 := by ring
  rw [h1, dayFromYear_add_400, inLeapYear_add_400]
  rw [show dayFromYear (y + ((m : Int) + 1) / 12) + 146097
        + cumDaysBefore (inLeapYear (y + ((m : Int) + 1) / 12)) ((((m : Int) + 1) % 12).toNat)
        + (0 - 1)
      = (dayFromYear (y + ((m : Int) + 1) / 12)
        + cumDaysBefore (inLeapYear (y + ((m : Int) + 1) / 12)) ((((m : Int) + 1) % 12).toNat)
        + (0 - 1)) + 146097 by ring]
  rw [dateFromDay_add_146097]

lemma getDaysInMonth_greg_aux : ∀ (n : Nat) (y : Int), (y - 1000).toNat = n →
    1000 ≤ y → y ≤ 9999 → ∀ (m : Nat), m < 12 →
    getDaysInMonth (m : Int) y = specGregorianDays y m := by
  intro n
  induction n using Nat.strong_induction_on with
  | _ n ih =>
    intro y hn h1 h2 m hm
    by_cases hy : y < 1400
    · obtain ⟨a, ha400, hya⟩ : ∃ a : Nat, a < 400 ∧ y = 1000 + (a : Int) :=
        ⟨(y - 1000).toNat, by omega, by omega⟩
      subst hya
      exact getDaysInMonth_base a ha400 m hm
    · have h3 : getDaysInMonth (m : Int) y = getDaysInMonth (m : Int) (y - 400) := by
        have h := getDaysInMonth_add_400 m (y - 400) (by omega)
        rwa [show y - 400 + 400 = y by ring] at h
      have h4 : specGregorianDays y m = specGregorianDays (y - 400) m := by
        have h := specGregorianDays_add_400 (y - 400) m
        rwa [show y - 400 + 400 = y by ring] at h
      rw [h3, h4]
      exact ih ((y - 400) - 1000).toNat (by omega) (y - 400) rfl (by omega) (by omega) m hm

lemma inLeapYear_iff (y : Int) :
    inLeapYear y = true ↔ (y % 4 = 0 ∧ (¬ y % 100 = 0 ∨ y % 400 = 0)) := by
  simp [inLeapYear]

lemma specGregorianDays_eq_table (y : Int) (m : Nat) :
    specGregorianDays y m =
      if m = 1 then (if inLeapYear y then 29 else 28)
      else if m = 3 ∨ m = 5 ∨ m = 8 ∨ m = 10 then 30
      else 31 := by
  unfold specGregorianDays
  congr 1
  by_cases h : y % 4 = 0 ∧ (¬ y % 100 = 0 ∨ y % 400 = 0)
  · rw [if_pos h, if_pos ((inLeapYear_iff y).mpr h)]
  · rw [if_neg h, if_neg (fun hb => h ((inLeapYear_iff y).mp hb))]

lemma cumDaysBefore_step (y : Int) (m : Nat) (hm : m < 11) :
    cumDaysBefore (inLeapYear y) (m + 1)
      = cumDaysBefore (inLeapYear y) m + specGregorianDays y m := by
  rw [specGregorianDays_eq_table]
  interval_cases m <;> cases hL : inLeapYear y <;>
    simp [cumDaysBefore, hL]

lemma firstDay_range (month year : Int) :
    0 ≤ getFirstDayOfMonth month year ∧ getFirstDayOfMonth month year < 7 := by
  unfold getFirstDayOfMonth
  omega

lemma firstDay_succ (y : Int) (hy1 : 1000 ≤ y) (hy2 : y ≤ 9999) (m : Nat)
    (hm : m < 11) :
    getFirstDayOfMonth ((m : Int) + 1) y
      = (getFirstDayOfMonth (m : Int) y + getDaysInMonth (m : Int) y) % 7 := by
  have hgd : getDaysInMonth (m : Int) y = specGregorianDays y m :=
    getDaysInMonth_greg_aux (y - 1000).toNat y rfl hy1 hy2 m (by omega)
  rw [hgd]
  simp only [getFirstDayOfMonth, dateConstructorDay, makeDay]
  rw [if_neg (show ¬ (0 ≤ y ∧ y ≤ 99) by omega)]
  have e1 : ((m : Int) + 1) / 12 = 0 := by omega
  have e2 : ((m : Int)) / 12 = 0 := by omega
  have e3 : (((m : Int) + 1) % 12).toNat = m + 1 := by omega
  have e4 : (((m : Int)) % 12).toNat = m := by omega
  rw [e1, e2, e3, e4]
  simp only [add_zero]
  rw [cumDaysBefore_step y m hm]
  omega

lemma dayFromYear_succ (y : Int) :
    dayFromYear (y + 1) = dayFromYear y + (if inLeapYear y then 366 else 365) := by
  cases hL : inLeapYear y
  · have hcond : ¬ (y % 4 = 0 ∧ (¬ y % 100 = 0 ∨ y % 400 = 0)) := by
      rw [← inLeapYear_iff, hL]; simp
    rw [if_neg (by simp [hL])]
    unfold dayFromYear
    omega
  · have hcond : y % 4 = 0 ∧ (¬ y % 100 = 0 ∨ y % 400 = 0) :=
      (inLeapYear_iff y).mp hL
    rw [if_pos (by simp [hL])]
    unfold dayFromYear
    omega

lemma firstDay_wrap (y : Int) (hy1 : 1000 ≤ y) (hy2 : y ≤ 9998) :
    getFirstDayOfMonth 0 (y + 1)
      = (getFirstDayOfMonth 11 y + getDaysInMonth 11 y) % 7 := by
  have hgd : getDaysInMonth (11 : Int) y = specGregorianDays y 11 := by
    have h := getDaysInMonth_greg_aux (y - 1000).toNat y rfl hy1 (by omega) 11 (by omega)
    exact_mod_cast h
  have hspec : specGregorianDays y 11 = 31 := by simp [specGregorianDays]
  rw [hgd, hspec]
  simp only [getFirstDayOfMonth, dateConstructorDay, makeDay]
  rw [if_neg (show ¬ (0 ≤ y + 1 ∧ y + 1 ≤ 99) by omega),
      if_neg (show ¬ (0 ≤ y ∧ y ≤ 99) by omega)]
  norm_num
  have hdfy := dayFromYear_succ y
  cases hL : inLeapYear y <;> rw [hL] at hdfy <;> simp at hdfy <;>
    simp [cumDaysBefore, hL] <;> omega

/-- C1: for every 4-digit year and 0-indexed month in 0..11,
`getDaysInMonth` returns the Gregorian day count for that month,
including 29 for February exactly when the year is divisible by 4 and
(not divisible by 100 or divisible by 400); in particular, for year 2026
and month 1 it returns 28. -/
theorem getDaysInMonth_gregorian :
    (∀ (year : Int), 1000 ≤ year → year ≤ 9999 → ∀ (m : Nat), m < 12 →
        getDaysInMonth (m : Int) year = specGregorianDays year m) ∧
    getDaysInMonth 1 2026 = 28 := by
  constructor
  · intro y h1 h2 m hm
    exact getDaysInMonth_greg_aux (y - 1000).toNat y rfl h1 h2 m hm
  · decide

/-- Witness for C1: instantiated at year 2026, month 1 (February). -/
theorem getDaysInMonth_gregorian_witness :
    (1000 : Int) ≤ 2026 ∧ (2026 : Int) ≤ 9999 ∧ 1 < 12 ∧
    getDaysInMonth ((1 : Nat) : Int) 2026 = specGregorianDays 2026 1 :=
  ⟨by norm_num, by norm_num, by norm_num,
   getDaysInMonth_gregorian.1 2026 (by norm_num) (by norm_num) 1 (by norm_num)⟩

/-- C9: `getFirstDayOfMonth` is the weekday index of day 1 with 0
denoting Sunday: its value is in 0..6, it advances across consecutive
months (and across New Year) by the month's day count modulo 7, and it
is 0 for February 2026 (2026-02-01 is a Sunday), giving 0 leading blank
cells. -/
theorem getFirstDayOfMonth_weekday :
    (∀ (year : Int) (m : Nat), 1000 ≤ year → year ≤ 9999 → m < 12 →
        0 ≤ getFirstDayOfMonth (m : Int) year ∧
        getFirstDayOfMonth (m : Int) year < 7) ∧
    (∀ (year : Int) (m : Nat), 1000 ≤ year → year ≤ 9999 → m < 11 →
        getFirstDayOfMonth ((m : Int) + 1) year
          = (getFirstDayOfMonth (m : Int) year
              + getDaysInMonth (m : Int) year) % 7) ∧
    (∀ year : Int, 1000 ≤ year → year ≤ 9998 →
        getFirstDayOfMonth 0 (year + 1)
          = (getFirstDayOfMonth 11 year + getDaysInMonth 11 year) % 7) ∧
    getFirstDayOfMonth 1 2026 = 0 := by
  refine ⟨?_, ?_, ?_, ?_⟩
  · intro y m _ _ _
    exact firstDay_range (m : Int) y
  · intro y m h1 h2 hm
    exact firstDay_succ y h1 h2 m hm
  · intro y h1 h2
    exact firstDay_wrap y h1 h2
  · decide

/-- Witness for C9: instantiated at year 2026, months 0 and 1. -/
theorem getFirstDayOfMonth_weekday_witness :
    (1000 : Int) ≤ 2026 ∧ (2026 : Int) ≤ 9999 ∧ 0 < 11 ∧
    getFirstDayOfMonth ((0 : Nat) + 1 : Int) 2026
      = (getFirstDayOfMonth ((0 : Nat) : Int) 2026
          + getDaysInMonth ((0 : Nat) : Int) 2026) % 7 :=
  ⟨by norm_num, by norm_num, by norm_num,
   getFirstDayOfMonth_weekday.2.1 2026 0 (by norm_num) (by norm_num)
     (by norm_num)⟩

lemma objGet_objSet {α : Type} (m : List (String × α)) (k : String) (v : α)
    (k' : String) :
    objGet (objSet m k v) k' = if k = k' then some v else objGet m k' := by
  induction m with
  | nil =>
    by_cases h : k = k' <;> simp [objSet, objGet, h]
  | cons p r ih =>
    obtain ⟨k0, v0⟩ := p
    by_cases h0 : k0 = k
    · subst h0
      by_cases h : k0 = k' <;> simp [objSet, objGet, h]
    · by_cases h : k0 = k'
      · subst h
        have hkk : ¬ k = k0 := fun hh => h0 hh.symm
        simp [objSet, objGet, h0, hkk]
      · simp [objSet, objGet, h0, h, ih]

lemma mem_insertByDate (x d : Doc) (l : List Doc) :
    x ∈ insertByDate d l ↔ x = d ∨ x ∈ l := by
  induction l with
  | nil => simp [insertByDate]
  | cons y ys ih =>
    by_cases h : strLe d.date.data y.date.data
    · simp only [insertByDate, if_pos h, List.mem_cons]
    · simp only [insertByDate, if_neg h, List.mem_cons, ih]
      tauto

lemma mem_sortByDate (x : Doc) (l : List Doc) :
    x ∈ sortByDate l ↔ x ∈ l := by
  unfold sortByDate
  induction l with
  | nil => simp
  | cons y ys ih =>
    simp only [List.foldr_cons, List.mem_cons, mem_insertByDate, ih]

lemma buildEntries_some_aux (docs : List Doc)
    (m : List (String × CacheEntry)) (d : String) (e : CacheEntry) :
    objGet (docs.foldl (fun acc dd => objSet acc dd.date (docToCacheEntry dd)) m) d
        = some e →
    (∃ doc, doc ∈ docs ∧ doc.date = d ∧ e = docToCacheEntry doc)
      ∨ objGet m d = some e := by
  induction docs generalizing m with
  | nil => intro h; exact Or.inr h
  | cons doc docs ih =>
    intro h
    rcases ih (objSet m doc.date (docToCacheEntry doc)) h with h1 | h2
    · obtain ⟨dd, hmem, hdate, he⟩ := h1
      exact Or.inl ⟨dd, List.mem_cons_of_mem _ hmem, hdate, he⟩
    · rw [objGet_objSet] at h2
      by_cases hd : doc.date = d
      · simp [hd] at h2
        exact Or.inl ⟨doc, List.mem_cons_self _ _, hd, h2.symm⟩
      · simp [hd] at h2
        exact Or.inr h2

lemma objGet_isSome_foldl (docs : List Doc)
    (m : List (String × CacheEntry)) (d : String)
    (h : (objGet m d).isSome) :
    (objGet (docs.foldl (fun acc dd => objSet acc dd.date (docToCacheEntry dd)) m) d).isSome := by
  induction docs generalizing m with
  | nil => exact h
  | cons doc docs ih =>
    apply ih
    rw [objGet_objSet]
    by_cases hd : doc.date = d <;> simp [hd, h]

lemma buildEntries_isSome_aux (docs : List Doc) :
    ∀ (m : List (String × CacheEntry)) (doc : Doc), doc ∈ docs →
    (objGet (docs.foldl (fun acc dd => objSet acc dd.date (docToCacheEntry dd)) m) doc.date).isSome := by
  induction docs with
  | nil => intro m doc h; cases h
  | cons d0 docs ih =>
    intro m doc hmem
    rcases List.mem_cons.mp hmem with h | h
    · subst h
      exact objGet_isSome_foldl docs _ _ (by rw [objGet_objSet]; simp)
    · exact ih _ doc h

lemma load_some_spec (db : List Doc) (uid : String) (s : CalState)
    (d : String) (e : CacheEntry)
    (he : objGet (getCurrentEntries (loadUserEntries db uid true s).1) d
      = some e) :
    ∃ doc, doc ∈ db ∧ doc.userId = uid ∧ doc.date = d ∧
      e = docToCacheEntry doc := by
  have he' : objGet
      (buildEntries (sortByDate (db.filter (fun dd => dd.userId == uid)))) d
      = some e := he
  unfold buildEntries at he'
  rcases buildEntries_some_aux _ _ _ _ he' with hx | hx
  · obtain ⟨doc, hmem, hdate, hce⟩ := hx
    have hmem2 : doc ∈ db.filter (fun dd => dd.userId == uid) :=
      (mem_sortByDate doc _).mp hmem
    have hmem3 := List.mem_filter.mp hmem2
    have huser : doc.userId = uid := by
      have := hmem3.2
      simpa using this
    exact ⟨doc, hmem3.1, huser, hdate, hce⟩
  · simp [objGet] at hx

lemma load_isSome_spec (db : List Doc) (uid : String) (s : CalState)
    (doc : Doc) (hdb : doc ∈ db) (huser : doc.userId = uid) :
    (objGet (getCurrentEntries (loadUserEntries db uid true s).1)
      doc.date).isSome := by
  show (objGet
      (buildEntries (sortByDate (db.filter (fun dd => dd.userId == uid))))
      doc.date).isSome
  unfold buildEntries
  apply buildEntries_isSome_aux
  rw [mem_sortByDate, List.mem_filter]
  exact ⟨hdb, by simp [huser]⟩

/-- C2: after a successful `loadUserEntries(ownerId)`, the cache returned
by `getCurrentEntries` holds exactly the stored entries whose `userId`
equals `ownerId`, keyed by their date string, with no entry of any other
owner, and `getViewingUserId` equals `ownerId`. -/
theorem loadUserEntries_filters_owner (db : List Doc) (uid : String)
    (ok : Bool) (s s' : CalState)
    (h : loadUserEntries db uid ok s = (s', none)) :
    getViewingUserId s' = some uid ∧
    (∀ d e, objGet (getCurrentEntries s') d = some e →
       ∃ doc, doc ∈ db ∧ doc.userId = uid ∧ doc.date = d ∧
         e.id = doc.id ∧ e.rating = doc.rating ∧ e.note = doc.note ∧
         e.ownerId = uid) ∧
    (∀ doc, doc ∈ db → doc.userId = uid →
       (objGet (getCurrentEntries s') doc.date).isSome) := by
  cases ok with
  | false => simp [loadUserEntries] at h
  | true =>
    have h1 : s' = (loadUserEntries db uid true s).1 := by
      rw [h]
    subst h1
    refine ⟨rfl, ?_, ?_⟩
    · intro d e he
      obtain ⟨doc, hdb, huser, hdate, hce⟩ := load_some_spec db uid s d e he
      exact ⟨doc, hdb, huser, hdate, by rw [hce]; rfl,
        by rw [hce]; rfl, by rw [hce]; rfl, by rw [hce]; exact huser⟩
    · intro doc hdb huser
      exact load_isSome_spec db uid s doc hdb huser

/-- Witness for C2: a two-document collection with two owners, loaded
for owner `u1`. -/
theorem loadUserEntries_filters_owner_witness :
    getViewingUserId
        (loadUserEntries
          [{ id := "d1", userId := "u1", date := "2026-01-02",
             rating := some 4, note := "n1" },
           { id := "d2", userId := "u2", date := "2026-01-01",
             rating := some 2, note := "n2" }]
          "u1" true { currentEntries := [], viewingUserId := none }).1
      = some "u1" ∧
    (objGet
        (getCurrentEntries
          (loadUserEntries
            [{ id := "d1", userId := "u1", date := "2026-01-02",
               rating := some 4, note := "n1" },
             { id := "d2", userId := "u2", date := "2026-01-01",
               rating := some 2, note := "n2" }]
            "u1" true { currentEntries := [], viewingUserId := none }).1)
        "2026-01-02").isSome := by
  have h := loadUserEntries_filters_owner
    [{ id := "d1", userId := "u1", date := "2026-01-02",
       rating := some 4, note := "n1" },
     { id := "d2", userId := "u2", date := "2026-01-01",
       rating := some 2, note := "n2" }]
    "u1" true { currentEntries := [], viewingUserId := none } _ rfl
  exact ⟨h.1,
    h.2.2
      { id := "d1", userId := "u1", date := "2026-01-02",
        rating := some 4, note := "n1" }
      (by simp) rfl⟩

/-- C3: with an authenticated actor and a successful write, `saveEntry`
immediately stores in the cache, at key `date`, the supplied values —
the rating coerced by `parseInt` with no 1..5 range check, the note
replaced by the empty string when absent — so `getCurrentEntries`
reflects the write with no further load. -/
theorem saveEntry_updates_cache (uid date rating : String)
    (note : Option String) (db : List Doc) (s : CalState) :
    (saveEntry (some uid) date rating note true db s).2.2 = none ∧
    objGet
        (getCurrentEntries (saveEntry (some uid) date rating note true db s).2.1)
        date
      = some { id := uid ++ "_" ++ date, rating := jsParseInt rating,
               note := note.getD "", ownerId := uid } := by
  constructor
  · rfl
  · have h := objGet_objSet s.currentEntries date
      { id := uid ++ "_" ++ date, rating := jsParseInt rating,
        note := note.getD "", ownerId := uid } date
    rw [if_pos rfl] at h
    exact h

/-- C6: `saveEntry` fails with `NotAuthenticatedError` exactly when no
actor is present and with `WriteError` exactly when the storage write
fails; in either failure case the module state is untouched. -/
theorem saveEntry_error_cases (user : Option String) (date rating : String)
    (note : Option String) (writeOk : Bool) (db : List Doc) (s : CalState) :
    ((saveEntry user date rating note writeOk db s).2.2
        = some CalErr.notAuthenticated ↔ user = none) ∧
    ((saveEntry user date rating note writeOk db s).2.2
        = some CalErr.writeError ↔ user ≠ none ∧ writeOk = false) ∧
    ((saveEntry user date rating note writeOk db s).2.2 ≠ none →
       (saveEntry user date rating note writeOk db s).2.1 = s) := by
  cases user <;> cases writeOk <;> simp [saveEntry]

/-- Witness for C6: an unauthenticated save fails and leaves the state
alone. -/
theorem saveEntry_error_cases_witness :
    (saveEntry none "2026-03-15" "4" none true []
        { currentEntries := [], viewingUserId := none }).2.2
      = some CalErr.notAuthenticated ∧
    (saveEntry none "2026-03-15" "4" none true []
        { currentEntries := [], viewingUserId := none }).2.1
      = { currentEntries := [], viewingUserId := none } :=
  ⟨(saveEntry_error_cases none "2026-03-15" "4" none true []
      { currentEntries := [], viewingUserId := none }).1.mpr rfl,
   (saveEntry_error_cases none "2026-03-15" "4" none true []
      { currentEntries := [], viewingUserId := none }).2.2 (by decide)⟩

/-- C7: `loadUserEntries` fails with `FetchError` exactly when the fetch
fails, and on failure the cache and the viewed owner keep their prior
state. -/
theorem loadUserEntries_error_cases (db : List Doc) (uid : String)
    (ok : Bool) (s : CalState) :
    ((loadUserEntries db uid ok s).2 = some CalErr.fetchError ↔ ok = false) ∧
    ((loadUserEntries db uid ok s).2 = none ↔ ok = true) ∧
    (ok = false → (loadUserEntries db uid ok s).1 = s) := by
  cases ok <;> simp [loadUserEntries]

/-- Witness for C7: a failed fetch over a non-empty prior state. -/
theorem loadUserEntries_error_cases_witness :
    (loadUserEntries [] "u1" false
        { currentEntries :=
            [("2026-01-01",
              { id := "i", rating := some 3, note := "n", ownerId := "u2" })],
          viewingUserId := some "u2" }).1
      = { currentEntries :=
            [("2026-01-01",
              { id := "i", rating := some 3, note := "n", ownerId := "u2" })],
          viewingUserId := some "u2" } ∧
    (loadUserEntries [] "u1" false
        { currentEntries :=
            [("2026-01-01",
              { id := "i", rating := some 3, note := "n", ownerId := "u2" })],
          viewingUserId := some "u2" }).2
      = some CalErr.fetchError :=
  ⟨(loadUserEntries_error_cases [] "u1" false _).2.2 rfl,
   (loadUserEntries_error_cases [] "u1" false _).1.mpr rfl⟩

/-- C10: a successful `saveEntry` for a date changes no other cache key
and leaves the viewed owner unchanged. -/
theorem saveEntry_frame (uid date rating : String) (note : Option String)
    (db : List Doc) (s : CalState) :
    (∀ d : String, d ≠ date →
       objGet
           (getCurrentEntries
             (saveEntry (some uid) date rating note true db s).2.1) d
         = objGet (getCurrentEntries s) d) ∧
    getViewingUserId (saveEntry (some uid) date rating note true db s).2.1
      = getViewingUserId s := by
  constructor
  · intro d hd
    have h := objGet_objSet s.currentEntries date
      { id := uid ++ "_" ++ date, rating := jsParseInt rating,
        note := note.getD "", ownerId := uid } d
    rw [if_neg (fun hh => hd hh.symm)] at h
    exact h
  · rfl

/-- Witness for C10: saving 2026-01-02 leaves the entry at 2026-01-01
untouched. -/
theorem saveEntry_frame_witness :
    objGet
        (getCurrentEntries
          (saveEntry (some "u1") "2026-01-02" "4" none true []
            { currentEntries :=
                [("2026-01-01",
                  { id := "i", rating := some 3, note := "n",
                    ownerId := "u1" })],
              viewingUserId := some "u1" }).2.1)
        "2026-01-01"
      = objGet
          (getCurrentEntries
            { currentEntries :=
                [("2026-01-01",
                  { id := "i", rating := some 3, note := "n",
                    ownerId := "u1" })],
              viewingUserId := some "u1" })
          "2026-01-01" :=
  (saveEntry_frame "u1" "2026-01-02" "4" none []
    { currentEntries :=
        [("2026-01-01",
          { id := "i", rating := some 3, note := "n", ownerId := "u1" })],
      viewingUserId := some "u1" }).1 "2026-01-01" (by decide)

/-- Counterexample to C8 as stated: from an empty collection, load owner
`u2` (success), then save as authenticated actor `u1` (success) — both
operations the module accepts.  The reached state has a cache entry
written for `u1` while the owner most recently passed to load (the
viewing user) is `u2`. -/
theorem cache_owner_invariant_cex :
    ReachableCal []
      (saveEntry (some "u1") "2026-03-15" "4" (some "Great hike") true []
        (loadUserEntries [] "u2" true
          { currentEntries := [], viewingUserId := none }).1).1
      (saveEntry (some "u1") "2026-03-15" "4" (some "Great hike") true []
        (loadUserEntries [] "u2" true
          { currentEntries := [], viewingUserId := none }).1).2.1 ∧
    getViewingUserId
        (saveEntry (some "u1") "2026-03-15" "4" (some "Great hike") true []
          (loadUserEntries [] "u2" true
            { currentEntries := [], viewingUserId := none }).1).2.1
      = some "u2" ∧
    objGet
        (getCurrentEntries
          (saveEntry (some "u1") "2026-03-15" "4" (some "Great hike") true []
            (loadUserEntries [] "u2" true
              { currentEntries := [], viewingUserId := none }).1).2.1)
        "2026-03-15"
      = some { id := "u1_2026-03-15", rating := some 4, note := "Great hike",
               ownerId := "u1" } ∧
    ("u1" : String) ≠ "u2" := by
  refine ⟨?_, by decide, by decide, by decide⟩
  exact ReachableCal.save "u1" "2026-03-15" "4" (some "Great hike")
    (ReachableCal.load "u2" ReachableCal.init)

/-- C8 (amended): every cache entry belongs to the currently viewed
owner in all states reachable when each save is performed while viewing
the actor's own calendar (the only sequences the application controller
produces); and, unconditionally, after any successful load for an owner
every cache entry belongs to that owner, so a prior save by a different
actor is never visible once the load completes. -/
theorem cache_owner_invariant_amended :
    (∀ (db0 db : List Doc) (s : CalState), ReachableCalOwned db0 db s →
       ∀ (d : String) (e : CacheEntry),
         objGet (getCurrentEntries s) d = some e →
         getViewingUserId s = some e.ownerId) ∧
    (∀ (db : List Doc) (uid : String) (s s' : CalState),
       loadUserEntries db uid true s = (s', none) →
       ∀ (d : String) (e : CacheEntry),
         objGet (getCurrentEntries s') d = some e → e.ownerId = uid) := by
  constructor
  · intro db0 db s hreach
    induction hreach with
    | init =>
      intro d e he
      simp [getCurrentEntries, objGet] at he
    | load uid hr ih =>
      intro d e he
      obtain ⟨doc, _, huser, _, hce⟩ := load_some_spec _ _ _ _ _ he
      show some uid = some e.ownerId
      rw [hce]
      show some uid = some doc.userId
      rw [huser]
    | save uid date rating note hr hview ih =>
      rename_i db' s'
      intro d e he
      have he' : objGet
          (objSet s'.currentEntries date
            { id := uid ++ "_" ++ date, rating := jsParseInt rating,
              note := note.getD "", ownerId := uid }) d = some e := he
      rw [objGet_objSet] at he'
      by_cases hd : date = d
      · rw [if_pos hd] at he'
        injection he' with hh
        show s'.viewingUserId = some e.ownerId
        rw [← hh, hview]
      · rw [if_neg hd] at he'
        show s'.viewingUserId = some e.ownerId
        exact ih d e he'
  · intro db uid s s' h d e he
    have h1 : s' = (loadUserEntries db uid true s).1 := by rw [h]
    subst h1
    obtain ⟨doc, _, huser, _, hce⟩ := load_some_spec db uid s d e he
    rw [hce]
    exact huser

/-- Witness for C8 (amended): load `u1`, then a save performed by `u1`
while viewing `u1`; the cache entry's owner is the viewing user. -/
theorem cache_owner_invariant_amended_witness :
    getViewingUserId
        (saveEntry (some "u1") "2026-03-15" "4" (some "Great hike") true []
          (loadUserEntries [] "u1" true
            { currentEntries := [], viewingUserId := none }).1).2.1
      = some "u1" := by
  have hr : ReachableCalOwned [] []
      (loadUserEntries [] "u1" true
        { currentEntries := [], viewingUserId := none }).1 :=
    ReachableCalOwned.load "u1" ReachableCalOwned.init
  have hr2 := ReachableCalOwned.save "u1" "2026-03-15" "4" (some "Great hike")
    hr rfl
  exact cache_owner_invariant_amended.1 _ _ _ hr2 "2026-03-15"
    { id := "u1_2026-03-15", rating := some 4, note := "Great hike",
      ownerId := "u1" } (by decide)

lemma decDigit_facts : ∀ d : Nat, d < 10 →
    isDigitChar (decDigitChar d) = true ∧ digitVal (decDigitChar d) = d := by
  decide

lemma natDecChars_all_digits : ∀ n : Nat, ∀ c ∈ natDecChars n, isDigitChar c = true := by
  intro n
  induction n using Nat.strong_induction_on with
  | _ n ih =>
    intro c hc
    rw [natDecChars] at hc
    by_cases h : n < 10
    · rw [dif_pos h] at hc
      simp at hc
      subst hc
      exact (decDigit_facts n h).1
    · rw [dif_neg h] at hc
      rcases List.mem_append.mp hc with h1 | h1
      · exact ih (n / 10) (Nat.div_lt_self (by omega) (by norm_num)) c h1
      · simp at h1
        subst h1
        exact (decDigit_facts (n % 10) (Nat.mod_lt _ (by norm_num))).1

lemma natDecChars_ne_nil (n : Nat) : natDecChars n ≠ [] := by
  rw [natDecChars]
  by_cases h : n < 10
  · rw [dif_pos h]; simp
  · rw [dif_neg h]; simp

lemma parseDigitsAcc_digits (ds : List Char) (hds : ∀ c ∈ ds, isDigitChar c = true) :
    ∀ (acc : Nat) (rest : List Char),
    parseDigitsAcc acc (ds ++ rest)
      = parseDigitsAcc (ds.foldl (fun a c => 10 * a + digitVal c) acc) rest := by
  induction ds with
  | nil => intro acc rest; simp
  | cons c ds ih =>
    intro acc rest
    have hc : isDigitChar c = true := hds c (by simp)
    simp only [List.cons_append, parseDigitsAcc, hc, if_pos]
    exact ih (fun c h => hds c (by simp [h])) _ rest

lemma parseDigitsAcc_stop (acc : Nat) (rest : List Char)
    (hr : ∀ c r', rest = c :: r' → isDigitChar c = false) :
    parseDigitsAcc acc rest = (acc, rest) := by
  cases rest with
  | nil => rfl
  | cons c r' => simp [parseDigitsAcc, hr c r' rfl]

lemma natDecChars_foldl : ∀ (n : Nat) (acc : Nat),
    (natDecChars n).foldl (fun a c => 10 * a + digitVal c) acc
      = acc * 10 ^ (natDecChars n).length + n := by
  intro n
  induction n using Nat.strong_induction_on with
  | _ n ih =>
    intro acc
    rw [natDecChars]
    by_cases h : n < 10
    · rw [dif_pos h]
      simp [(decDigit_facts n h).2]
      ring
    · rw [dif_neg h]
      rw [List.foldl_append]
      rw [ih (n / 10) (Nat.div_lt_self (by omega) (by norm_num))]
      simp only [List.foldl_cons, List.foldl_nil, List.length_append,
        List.length_cons, List.length_nil]
      rw [(decDigit_facts (n % 10) (Nat.mod_lt _ (by norm_num))).2]
      rw [pow_succ]
      have hdm : 10 * (n / 10) + n % 10 = n := Nat.div_add_mod n 10
      ring_nf
      omega

lemma parseDigitsAcc_natDec (n : Nat) (rest : List Char)
    (hr : ∀ c r', rest = c :: r' → isDigitChar c = false) :
    parseDigitsAcc 0 (natDecChars n ++ rest) = (n, rest) := by
  rw [parseDigitsAcc_digits (natDecChars n) (natDecChars_all_digits n) 0 rest]
  rw [natDecChars_foldl n 0]
  simp [parseDigitsAcc_stop _ _ hr]

lemma toNat_ofNat_small : ∀ n : Nat, n < 128 → (Char.ofNat n).toNat = n := by
  decide

lemma digit_ne_chars (c : Char) (h : isDigitChar c = true) :
    ¬ c = '-' ∧ ¬ c = '"' ∧ ¬ c = '[' ∧ ¬ c = '\x7b' := by
  refine ⟨?_, ?_, ?_, ?_⟩ <;> intro hh <;> subst hh <;>
    exact absurd h (by decide)

lemma intToString_data (i : Int) :
    (intToString i).data =
      if i < 0 then '-' :: natDecChars (-i).toNat else natDecChars i.toNat := by
  unfold intToString
  split <;> rfl

lemma parseIntTok_round (i : Int) (rest : List Char)
    (hr : ∀ c r', rest = c :: r' → isDigitChar c = false) :
    parseIntTok ((intToString i).data ++ rest) = some (i, rest) := by
  rw [intToString_data]
  by_cases h : i < 0
  · rw [if_pos h]
    cases hnd : natDecChars (-i).toNat with
    | nil => exact absurd hnd (natDecChars_ne_nil _)
    | cons c ds =>
      have hc : isDigitChar c = true :=
        natDecChars_all_digits _ c (by rw [hnd]; simp)
      have key : parseDigitsAcc 0 ((c :: ds) ++ rest) = ((-i).toNat, rest) := by
        rw [← hnd]
        exact parseDigitsAcc_natDec _ _ hr
      have step : parseDigitsAcc 0 ((c :: ds) ++ rest)
          = parseDigitsAcc (digitVal c) (ds ++ rest) := by
        simp [parseDigitsAcc, hc]
      rw [step] at key
      show parseIntTok ('-' :: (c :: ds) ++ rest) = some (i, rest)
      simp only [List.cons_append, parseIntTok, if_pos, hc, key]
      simp
      omega
  · rw [if_neg h]
    cases hnd : natDecChars i.toNat with
    | nil => exact absurd hnd (natDecChars_ne_nil _)
    | cons c ds =>
      have hc : isDigitChar c = true :=
        natDecChars_all_digits _ c (by rw [hnd]; simp)
      have key : parseDigitsAcc 0 ((c :: ds) ++ rest) = (i.toNat, rest) := by
        rw [← hnd]
        exact parseDigitsAcc_natDec _ _ hr
      have step : parseDigitsAcc 0 ((c :: ds) ++ rest)
          = parseDigitsAcc (digitVal c) (ds ++ rest) := by
        simp [parseDigitsAcc, hc]
      rw [step] at key
      show parseIntTok (c :: (ds ++ rest)) = some (i, rest)
      simp only [parseIntTok, if_neg (digit_ne_chars c hc).1, hc, if_pos, key]
      simp
      omega

lemma hexVal_lowDigit (q : Nat) (hq : q < 10) :
    hexVal (Char.ofNat (48 + q)) = some q := by
  have ht : (Char.ofNat (48 + q)).toNat = 48 + q :=
    toNat_ofNat_small _ (by omega)
  unfold hexVal isDigitChar
  rw [ht]
  rw [if_pos (by simp; omega)]
  congr 1
  omega

lemma hexVal_lowLetter (r : Nat) (h1 : 10 ≤ r) (h2 : r < 16) :
    hexVal (Char.ofNat (87 + r)) = some r := by
  have ht : (Char.ofNat (87 + r)).toNat = 87 + r :=
    toNat_ofNat_small _ (by omega)
  unfold hexVal isDigitChar
  rw [ht]
  rw [if_neg (by simp; omega)]
  rw [if_pos (by simp; omega)]
  congr 1
  omega

lemma parseStrBody_round : ∀ (cs rest : List Char),
    parseStrBody (cs.flatMap escJSONChar ++ '"' :: rest) = some (cs, rest) := by
  intro cs
  induction cs with
  | nil => intro rest; simp [parseStrBody]
  | cons c cs ih =>
    intro rest
    rw [List.flatMap_cons, List.append_assoc]
    by_cases h1 : c = '"'
    · subst h1; simp [escJSONChar, parseStrBody, parseEsc, escCode, ih]
    · by_cases h2 : c = '\\'
      · subst h2; simp [escJSONChar, parseStrBody, parseEsc, escCode, ih]
      · by_cases h3 : c = '\x08'
        · subst h3; simp [escJSONChar, parseStrBody, parseEsc, escCode, ih]
        · by_cases h4 : c = '\t'
          · subst h4; simp [escJSONChar, parseStrBody, parseEsc, escCode, ih]
          · by_cases h5 : c = '\n'
            · subst h5; simp [escJSONChar, parseStrBody, parseEsc, escCode, ih]
            · by_cases h6 : c = '\x0c'
              · subst h6; simp [escJSONChar, parseStrBody, parseEsc, escCode, ih]
              · by_cases h7 : c = '\x0d'
                · subst h7; simp [escJSONChar, parseStrBody, parseEsc, escCode, ih]
                · by_cases h8 : c.toNat < 32
                  · have hesc : escJSONChar c =
                        ['\\', 'u', '0', '0',
                         Char.ofNat (48 + c.toNat / 16),
                         (if c.toNat % 16 < 10 then Char.ofNat (48 + c.toNat % 16)
                          else Char.ofNat (87 + c.toNat % 16))] := by
                      rw [escJSONChar]
                      rw [if_neg h1, if_neg h2, if_neg h3, if_neg h4, if_neg h5,
                          if_neg h6, if_neg h7, if_pos h8]
                      congr 1
                      rw [if_pos (by omega)]
                    rw [hesc]
                    have hhi : hexVal (Char.ofNat (48 + c.toNat / 16))
                        = some (c.toNat / 16) := hexVal_lowDigit _ (by omega)
                    have hlo : hexVal
                        (if c.toNat % 16 < 10 then Char.ofNat (48 + c.toNat % 16)
                         else Char.ofNat (87 + c.toNat % 16)) = some (c.toNat % 16) := by
                      by_cases hr : c.toNat % 16 < 10
                      · rw [if_pos hr]; exact hexVal_lowDigit _ hr
                      · rw [if_neg hr]
                        exact hexVal_lowLetter _ (by omega) (by omega)
                    have h0 : hexVal '0' = some 0 := by decide
                    simp [parseStrBody, parseEsc, parseEscU, hhi, hlo, h0, ih]
                    rw [show 16 * (c.toNat / 16) + c.toNat % 16 = c.toNat by omega]
                    exact Char.ofNat_toNat c
                  · have hesc : escJSONChar c = [c] := by
                      rw [escJSONChar]
                      rw [if_neg h1, if_neg h2, if_neg h3, if_neg h4, if_neg h5,
                          if_neg h6, if_neg h7, if_neg h8]
                    rw [hesc]
                    show parseStrBody (c :: (cs.flatMap escJSONChar ++ '"' :: rest))
                      = some (c :: cs, rest)
                    simp [parseStrBody, h1, h2, ih]

lemma parseVal_str (f : Nat) (s : String) (l rest : List Char)
    (h : skipWs l = '"' :: (s.data.flatMap escJSONChar ++ '"' :: rest)) :
    parseVal (f + 1) l = some (JVal.str s, rest) := by
  simp [parseVal, h, parseStrBody_round]

lemma parseVal_num (f : Nat) (i : Int) (l rest : List Char)
    (h : skipWs l = (intToString i).data ++ rest)
    (hr : ∀ c r', rest = c :: r' → isDigitChar c = false) :
    parseVal (f + 1) l = some (JVal.num i, rest) := by
  have htok := parseIntTok_round i rest hr
  rw [intToString_data] at h
  by_cases hneg : i < 0
  · rw [if_pos hneg] at h
    rw [List.cons_append] at h
    rw [intToString_data, if_pos hneg, List.cons_append] at htok
    simp [parseVal, h, htok]
  · rw [if_neg hneg] at h
    rw [intToString_data, if_neg hneg] at htok
    cases hnd : natDecChars i.toNat with
    | nil => exact absurd hnd (natDecChars_ne_nil _)
    | cons c ds =>
      rw [hnd] at h htok
      have hc : isDigitChar c = true :=
        natDecChars_all_digits _ c (by rw [hnd]; simp)
      obtain ⟨hm, hq, hb, hbr⟩ := digit_ne_chars c hc
      rw [List.cons_append] at h htok
      simp [parseVal, h, htok, hq, hb, hbr]

lemma quote_data_append (s : String) (t : List Char) :
    (quoteJSONString s).data ++ t
      = '"' :: (s.data.flatMap escJSONChar ++ '"' :: t) := by
  simp [quoteJSONString, String.data_append]


lemma skipWs_cons_ws (c : Char) (l : List Char) (h : isWsChar c = true) :
    skipWs (c :: l) = skipWs l := by
  simp [skipWs, h]

lemma skipWs_cons_not (c : Char) (l : List Char) (h : isWsChar c = false) :
    skipWs (c :: l) = c :: l := by
  simp [skipWs, h]

lemma ws_of_digit_false (c : Char) (h : isDigitChar c = true) :
    isWsChar c = false := by
  have w1 : c ≠ ' ' := by intro hh; subst hh; exact absurd h (by decide)
  have w2 : c ≠ '\n' := by intro hh; subst hh; exact absurd h (by decide)
  have w3 : c ≠ '\t' := by intro hh; subst hh; exact absurd h (by decide)
  have w4 : c ≠ '\x0d' := by intro hh; subst hh; exact absurd h (by decide)
  simp [isWsChar, w1, w2, w3, w4]

lemma skipWs_intDec (i : Int) (t : List Char) :
    skipWs ((intToString i).data ++ t) = (intToString i).data ++ t := by
  rw [intToString_data]
  by_cases hneg : i < 0
  · rw [if_pos hneg]
    simp [skipWs, isWsChar]
  · rw [if_neg hneg]
    cases hnd : natDecChars i.toNat with
    | nil => exact absurd hnd (natDecChars_ne_nil _)
    | cons c ds =>
      have hc : isDigitChar c = true :=
        natDecChars_all_digits _ c (by rw [hnd]; simp)
      rw [List.cons_append]
      exact skipWs_cons_not c _ (ws_of_digit_false c hc)

lemma parseMembers_entry (f : Nat) (e : Entry) (l rest : List Char)
    (h : skipWs l =
      '"' :: 'u' :: 's' :: 'e' :: 'r' :: 'I' :: 'd' :: '"' :: ':' :: ' ' ::
      ((quoteJSONString e.userId).data ++ (',' :: '\n' :: ' ' :: ' ' :: ' ' :: ' ' ::
       '"' :: 'd' :: 'a' :: 't' :: 'e' :: '"' :: ':' :: ' ' ::
      ((quoteJSONString e.date).data ++ (',' :: '\n' :: ' ' :: ' ' :: ' ' :: ' ' ::
       '"' :: 'r' :: 'a' :: 't' :: 'i' :: 'n' :: 'g' :: '"' :: ':' :: ' ' ::
      ((intToString e.rating).data ++ (',' :: '\n' :: ' ' :: ' ' :: ' ' :: ' ' ::
       '"' :: 'n' :: 'o' :: 't' :: 'e' :: '"' :: ':' :: ' ' ::
      ((quoteJSONString e.note).data
        ++ ('\n' :: ' ' :: ' ' :: '\x7d' :: rest))))))))) :
    parseMembers (f + 5) l
      = some ([("userId", JVal.str e.userId), ("date", JVal.str e.date),
               ("rating", JVal.num e.rating), ("note", JVal.str e.note)],
              rest) := by
  have hv4 : parseVal (f + 1) (' ' ::
      ((quoteJSONString e.note).data ++ ('\n' :: ' ' :: ' ' :: '\x7d' :: rest)))
      = some (JVal.str e.note, '\n' :: ' ' :: ' ' :: '\x7d' :: rest) := by
    apply parseVal_str
    rw [skipWs_cons_ws _ _ (by decide), quote_data_append]
    exact skipWs_cons_not _ _ (by decide)
  have hv3 : parseVal (f + 2) (' ' ::
      ((intToString e.rating).data ++ (',' :: '\n' :: ' ' :: ' ' :: ' ' :: ' ' ::
       '"' :: 'n' :: 'o' :: 't' :: 'e' :: '"' :: ':' :: ' ' ::
      ((quoteJSONString e.note).data ++ ('\n' :: ' ' :: ' ' :: '\x7d' :: rest)))))
      = some (JVal.num e.rating, ',' :: '\n' :: ' ' :: ' ' :: ' ' :: ' ' ::
       '"' :: 'n' :: 'o' :: 't' :: 'e' :: '"' :: ':' :: ' ' ::
      ((quoteJSONString e.note).data ++ ('\n' :: ' ' :: ' ' :: '\x7d' :: rest))) := by
    apply parseVal_num
    · rw [skipWs_cons_ws _ _ (by decide)]
      exact skipWs_intDec _ _
    · intro c r' hh
      cases hh
      decide
  have hv2 : parseVal (f + 3) (' ' ::
      ((quoteJSONString e.date).data ++ (',' :: '\n' :: ' ' :: ' ' :: ' ' :: ' ' ::
       '"' :: 'r' :: 'a' :: 't' :: 'i' :: 'n' :: 'g' :: '"' :: ':' :: ' ' ::
      ((intToString e.rating).data ++ (',' :: '\n' :: ' ' :: ' ' :: ' ' :: ' ' ::
       '"' :: 'n' :: 'o' :: 't' :: 'e' :: '"' :: ':' :: ' ' ::
      ((quoteJSONString e.note).data ++ ('\n' :: ' ' :: ' ' :: '\x7d' :: rest)))))))
      = some (JVal.str e.date, ',' :: '\n' :: ' ' :: ' ' :: ' ' :: ' ' ::
       '"' :: 'r' :: 'a' :: 't' :: 'i' :: 'n' :: 'g' :: '"' :: ':' :: ' ' ::
      ((intToString e.rating).data ++ (',' :: '\n' :: ' ' :: ' ' :: ' ' :: ' ' ::
       '"' :: 'n' :: 'o' :: 't' :: 'e' :: '"' :: ':' :: ' ' ::
      ((quoteJSONString e.note).data ++ ('\n' :: ' ' :: ' ' :: '\x7d' :: rest))))) := by
    apply parseVal_str
    rw [skipWs_cons_ws _ _ (by decide), quote_data_append]
    exact skipWs_cons_not _ _ (by decide)
  have hv1 : parseVal (f + 4) (' ' ::
      ((quoteJSONString e.userId).data ++ (',' :: '\n' :: ' ' :: ' ' :: ' ' :: ' ' ::
       '"' :: 'd' :: 'a' :: 't' :: 'e' :: '"' :: ':' :: ' ' ::
      ((quoteJSONString e.date).data ++ (',' :: '\n' :: ' ' :: ' ' :: ' ' :: ' ' ::
       '"' :: 'r' :: 'a' :: 't' :: 'i' :: 'n' :: 'g' :: '"' :: ':' :: ' ' ::
      ((intToString e.rating).data ++ (',' :: '\n' :: ' ' :: ' ' :: ' ' :: ' ' ::
       '"' :: 'n' :: 'o' :: 't' :: 'e' :: '"' :: ':' :: ' ' ::
      ((quoteJSONString e.note).data ++ ('\n' :: ' ' :: ' ' :: '\x7d' :: rest)))))))))
      = some (JVal.str e.userId, ',' :: '\n' :: ' ' :: ' ' :: ' ' :: ' ' ::
       '"' :: 'd' :: 'a' :: 't' :: 'e' :: '"' :: ':' :: ' ' ::
      ((quoteJSONString e.date).data ++ (',' :: '\n' :: ' ' :: ' ' :: ' ' :: ' ' ::
       '"' :: 'r' :: 'a' :: 't' :: 'i' :: 'n' :: 'g' :: '"' :: ':' :: ' ' ::
      ((intToString e.rating).data ++ (',' :: '\n' :: ' ' :: ' ' :: ' ' :: ' ' ::
       '"' :: 'n' :: 'o' :: 't' :: 'e' :: '"' :: ':' :: ' ' ::
      ((quoteJSONString e.note).data ++ ('\n' :: ' ' :: ' ' :: '\x7d' :: rest))))))) := by
    apply parseVal_str
    rw [skipWs_cons_ws _ _ (by decide), quote_data_append]
    exact skipWs_cons_not _ _ (by decide)
  simp [parseMembers, h, parseStrBody, skipWs, isWsChar, hv1, hv2, hv3, hv4]

lemma entryJSONText_shape (e : Entry) (rest : List Char) :
    (entryJSONText e).data ++ rest
      = '\x7b' :: '\n' :: ' ' :: ' ' :: ' ' :: ' ' ::
        '"' :: 'u' :: 's' :: 'e' :: 'r' :: 'I' :: 'd' :: '"' :: ':' :: ' ' ::
        ((quoteJSONString e.userId).data
          ++ (',' :: '\n' :: ' ' :: ' ' :: ' ' :: ' ' ::
        '"' :: 'd' :: 'a' :: 't' :: 'e' :: '"' :: ':' :: ' ' ::
        ((quoteJSONString e.date).data
          ++ (',' :: '\n' :: ' ' :: ' ' :: ' ' :: ' ' ::
        '"' :: 'r' :: 'a' :: 't' :: 'i' :: 'n' :: 'g' :: '"' :: ':' :: ' ' ::
        ((intToString e.rating).data
          ++ (',' :: '\n' :: ' ' :: ' ' :: ' ' :: ' ' ::
        '"' :: 'n' :: 'o' :: 't' :: 'e' :: '"' :: ':' :: ' ' ::
        ((quoteJSONString e.note).data
          ++ ('\n' :: ' ' :: ' ' :: '\x7d' :: rest)))))))) := by
  simp [entryJSONText, String.data_append]

lemma parseVal_entry (f : Nat) (e : Entry) (l rest : List Char)
    (h : skipWs l = (entryJSONText e).data ++ rest) :
    parseVal (f + 6) l = some (entryJVal e, rest) := by
  rw [entryJSONText_shape] at h
  have hm := parseMembers_entry f e
    ('"' :: 'u' :: 's' :: 'e' :: 'r' :: 'I' :: 'd' :: '"' :: ':' :: ' ' ::
      ((quoteJSONString e.userId).data ++ (',' :: '\n' :: ' ' :: ' ' :: ' ' :: ' ' ::
       '"' :: 'd' :: 'a' :: 't' :: 'e' :: '"' :: ':' :: ' ' ::
      ((quoteJSONString e.date).data ++ (',' :: '\n' :: ' ' :: ' ' :: ' ' :: ' ' ::
       '"' :: 'r' :: 'a' :: 't' :: 'i' :: 'n' :: 'g' :: '"' :: ':' :: ' ' ::
      ((intToString e.rating).data ++ (',' :: '\n' :: ' ' :: ' ' :: ' ' :: ' ' ::
       '"' :: 'n' :: 'o' :: 't' :: 'e' :: '"' :: ':' :: ' ' ::
      ((quoteJSONString e.note).data
        ++ ('\n' :: ' ' :: ' ' :: '\x7d' :: rest)))))))))
    rest (by rw [skipWs_cons_not _ _ (by decide)])
  simp [parseVal, h, skipWs, isWsChar, hm, entryJVal]

lemma skipWs_join (es : List Entry) (e : Entry) (t : List Char) :
    skipWs ((joinSep ",\n  " ((e :: es).map entryJSONText)).data ++ t)
      = (joinSep ",\n  " ((e :: es).map entryJSONText)).data ++ t := by
  cases es with
  | nil =>
    simp only [List.map_cons, List.map_nil, joinSep]
    rw [entryJSONText_shape]
    exact skipWs_cons_not _ _ (by decide)
  | cons e2 tl =>
    simp only [List.map_cons, joinSep, String.data_append, List.append_assoc]
    rw [entryJSONText_shape]
    exact skipWs_cons_not _ _ (by decide)

lemma parseItems_chain : ∀ (es : List Entry) (e : Entry) (f : Nat)
    (l rest : List Char),
    skipWs l = (joinSep ",\n  " ((e :: es).map entryJSONText)).data
      ++ ('\n' :: ']' :: rest) →
    parseItems (f + 7 * (e :: es).length) l
      = some ((e :: es).map entryJVal, rest) := by
  intro es
  induction es with
  | nil =>
    intro e f l rest h
    have h' : skipWs l = (entryJSONText e).data ++ ('\n' :: ']' :: rest) := by
      simpa [joinSep] using h
    have hv := parseVal_entry f e l ('\n' :: ']' :: rest) h'
    have hfuel : f + 7 * ([e] : List Entry).length = (f + 6) + 1 := by
      simp
    rw [hfuel]
    simp [parseItems, hv, skipWs_cons_ws _ _ (by decide : isWsChar '\n' = true),
      skipWs_cons_not _ _ (by decide : isWsChar ']' = false)]
  | cons e2 tl ih =>
    intro e f l rest h
    have h' : skipWs l = (entryJSONText e).data
        ++ (',' :: '\n' :: ' ' :: ' ' ::
          ((joinSep ",\n  " ((e2 :: tl).map entryJSONText)).data
            ++ ('\n' :: ']' :: rest))) := by
      rw [h]
      simp [joinSep, String.data_append, List.append_assoc]
    have hv := parseVal_entry (f + 7 * tl.length + 7) e l
      (',' :: '\n' :: ' ' :: ' ' ::
        ((joinSep ",\n  " ((e2 :: tl).map entryJSONText)).data
          ++ ('\n' :: ']' :: rest))) h'
    rw [show f + 7 * tl.length + 7 + 6 = f + 7 * tl.length + 13 by ring] at hv
    have hskip : skipWs ('\n' :: ' ' :: ' ' ::
        ((joinSep ",\n  " ((e2 :: tl).map entryJSONText)).data
          ++ ('\n' :: ']' :: rest)))
        = (joinSep ",\n  " ((e2 :: tl).map entryJSONText)).data
          ++ ('\n' :: ']' :: rest) := by
      rw [skipWs_cons_ws _ _ (by decide), skipWs_cons_ws _ _ (by decide),
        skipWs_cons_ws _ _ (by decide)]
      exact skipWs_join tl e2 _
    have hnext := ih e2 (f + 6) _ rest hskip
    rw [show f + 6 + 7 * ((e2 :: tl) : List Entry).length
        = f + 7 * tl.length + 13 by simp [List.length_cons]; ring] at hnext
    have hfuel : f + 7 * ((e :: e2 :: tl) : List Entry).length
        = (f + 7 * tl.length + 13) + 1 := by
      simp [List.length_cons]; ring
    rw [hfuel]
    generalize hF : f + 7 * tl.length + 13 = F at hv hnext ⊢
    simp only [List.map_cons] at hnext
    simp [parseItems, hv, hnext,
      skipWs_cons_not _ _ (by decide : isWsChar ',' = false)]

lemma entryJSONText_len (e : Entry) : 16 ≤ (entryJSONText e).data.length := by
  have h := congrArg List.length (entryJSONText_shape e [])
  simp only [List.length_append, List.length_cons, List.length_nil] at h
  omega

lemma join_len : ∀ (es : List Entry) (e : Entry),
    7 * (e :: es).length
      ≤ (joinSep ",\n  " ((e :: es).map entryJSONText)).data.length := by
  intro es
  induction es with
  | nil =>
    intro e
    simp only [List.map_cons, List.map_nil, joinSep, List.length_cons,
      List.length_nil]
    have := entryJSONText_len e
    omega
  | cons e2 tl ih =>
    intro e
    have h1 := entryJSONText_len e
    have h2 := ih e2
    simp only [List.map_cons, joinSep, String.data_append,
      List.length_append, List.length_cons] at h2 ⊢
    have hsep : (",\n  ").data.length = 4 := rfl
    omega

lemma exportJSON_len (e : Entry) (es : List Entry) :
    7 * (e :: es).length + 1 ≤ (exportJSON (e :: es)).data.length := by
  have hj := join_len es e
  simp only [List.length_cons] at hj
  simp only [exportJSON, List.isEmpty_cons, Bool.false_eq_true, if_false,
    String.data_append, List.length_append, List.length_cons, List.length_nil]
  have hb : ("[\n  ").data.length = 4 := rfl
  have he : ("\n]").data.length = 2 := rfl
  omega

lemma entryOfJVal_mk (e : Entry) : entryOfJVal (entryJVal e) = some e := rfl

lemma entriesOfJVal_map : ∀ es : List Entry,
    entriesOfJVal (JVal.arr (es.map entryJVal)) = some es := by
  intro es
  induction es with
  | nil => rfl
  | cons e tl ih =>
    simp only [entriesOfJVal] at ih ⊢
    rw [List.map_cons]
    simp [entryListOfJVals, entryOfJVal_mk, ih]

lemma join_head (es : List Entry) (e : Entry) (t : List Char) :
    ∃ X : List Char,
      (joinSep ",\n  " ((e :: es).map entryJSONText)).data ++ t
        = '\x7b' :: X := by
  cases es with
  | nil =>
    simp only [List.map_cons, List.map_nil, joinSep]
    rw [entryJSONText_shape]
    exact ⟨_, rfl⟩
  | cons e2 tl =>
    simp only [List.map_cons, joinSep, String.data_append, List.append_assoc]
    rw [entryJSONText_shape]
    exact ⟨_, rfl⟩

/-- C5: serializing any entry list with `exportJSON` and parsing the
text back yields the original list, field for field and in order. -/
theorem exportJSON_roundtrip (entries : List Entry) :
    parseEntriesJSON (exportJSON entries) = some entries := by
  cases entries with
  | nil => rfl
  | cons e es =>
    have hlen := exportJSON_len e es
    unfold parseEntriesJSON parseJSONText
    have hdata : (exportJSON (e :: es)).data
        = '[' :: '\n' :: ' ' :: ' ' ::
          ((joinSep ",\n  " ((e :: es).map entryJSONText)).data
            ++ ('\n' :: ']' :: [])) := by
      have hb : ("[\n  ").data = ['[', '\n', ' ', ' '] := rfl
      have he : ("\n]").data = ['\n', ']'] := rfl
      simp [exportJSON, String.data_append, hb, he]
    set L := (exportJSON (e :: es)).data.length with hL
    rw [hdata]
    obtain ⟨X, hX⟩ := join_head es e ('\n' :: ']' :: [])
    have hitems := parseItems_chain es e (L - 7 * (e :: es).length)
      ((joinSep ",\n  " ((e :: es).map entryJSONText)).data
        ++ ('\n' :: ']' :: []))
      [] (skipWs_join es e _)
    rw [show L - 7 * ((e :: es) : List Entry).length
          + 7 * ((e :: es) : List Entry).length = L by omega] at hitems
    rw [hX] at hitems
    have hsw : skipWs ('\n' :: ' ' :: ' ' ::
        ((joinSep ",\n  " ((e :: es).map entryJSONText)).data
          ++ ('\n' :: ']' :: []))) = '\x7b' :: X := by
      rw [skipWs_cons_ws _ _ (by decide), skipWs_cons_ws _ _ (by decide),
        skipWs_cons_ws _ _ (by decide), skipWs_join, hX]
    have hv : parseVal (L + 1)
        ('[' :: '\n' :: ' ' :: ' ' ::
          ((joinSep ",\n  " ((e :: es).map entryJSONText)).data
            ++ ('\n' :: ']' :: [])))
        = some (JVal.arr ((e :: es).map entryJVal), []) := by
      simp only [List.map_cons] at hsw hitems
      simp [parseVal, skipWs_cons_not _ _ (by decide : isWsChar '[' = false),
        hsw, hitems]
    rw [hv]
    have hm := entriesOfJVal_map (e :: es)
    simp only [List.map_cons] at hm
    simp [skipWs, hm]

/-- C4: `exportCSV` produces the header row `userId,date,rating,note`
and one row per entry in input order; the note field is quote-wrapped
with internal quotes doubled exactly when it contains a comma or a
double-quote, is emitted verbatim and unquoted otherwise, and newline
characters are never escaped. -/
theorem exportCSV_format (entries : List Entry) :
    exportCSV entries =
      String.intercalate "\n" ("userId,date,rating,note" ::
        entries.map (fun e =>
          e.userId ++ "," ++ e.date ++ "," ++ intToString e.rating ++ ","
            ++ (if e.note.data.contains ',' || e.note.data.contains '"' then
                  "\"" ++ String.mk (e.note.data.flatMap
                    (fun c => if c = '"' then ['"', '"'] else [c])) ++ "\""
                else e.note))) ∧
    (∀ note : String, note.data.contains ',' = false →
        note.data.contains '"' = false → csvEscapeNote note = note) := by
  constructor
  · rfl
  · intro note h1 h2
    unfold csvEscapeNote
    rw [h1, h2]
    rfl

/-- Witness for C4: a note containing a newline but neither comma nor
quote passes through `csvEscapeNote` verbatim. -/
theorem exportCSV_format_witness :
    ("hi\nthere").data.contains ',' = false ∧
    ("hi\nthere").data.contains '"' = false ∧
    csvEscapeNote "hi\nthere" = "hi\nthere" :=
  ⟨by decide, by decide,
   (exportCSV_format []).2 "hi\nthere" (by decide) (by decide)⟩
